import Mathlib

/-
Shallow embedding of `src/scripts/extract_pptx.py`.

The script is a single function `extract_text_from_pptx(pptx_path)`:

  try:
      with zipfile.ZipFile(pptx_path, 'r') as zip_ref:
          slide_files = [f for f in zip_ref.namelist()
                         if f.startswith('ppt/slides/slide') and f.endswith('.xml')]
          slide_files.sort(key=lambda x: int(re.search(r'slide(\d+)', x).group(1)))
          for slide_file in slide_files:
              print(f"--- {slide_file.upper().replace('PPT/SLIDES/', '').replace('.XML', '')} ---")
              content = zip_ref.read(slide_file).decode('utf-8')
              text_matches = re.findall(r'<a:t>(.*?)</a:t>', content)
              print(" ".join(text_matches))
              print()
  except Exception as e:
      print(f"Error: {e}")

Modelling decisions:
- The file system / zip layer is modelled by the function argument: opening the
  archive either raises (an `Except.error` carrying the exception message) or
  yields the list of entries in archive enumeration order.  For each entry,
  `zip_ref.read(...).decode('utf-8')` either yields a decoded string or raises;
  the two fallible steps are merged into one `Except String String` field.
- Standard output is modelled as a `List String`, one element per printed line
  (`print(x)` emits the line `x`; `print()` emits the empty line).
- Python's `str` operations and the two regexes are re-implemented over
  `List Char`.  `\d` is modelled as an ASCII digit (the inputs of interest are
  ASCII; Python's `\d` also accepts other Unicode decimal digits) and
  `str.upper` as the ASCII uppercase map for the same reason.
- Exceptions inside the `try` block carry the lines printed so far; the
  top-level `except Exception` turns the pending message into a final
  `Error: <details>` line.  `list.sort(key=...)` evaluates the key on every
  element, so a name without a `slide(\d+)` occurrence makes `.group(1)` raise
  `AttributeError` inside the `try` block before any slide is printed.
-/

/-- One archive entry: its name as enumerated by `namelist()`, and the result
of `zip_ref.read(name).decode('utf-8')` - the decoded text, or the message of
the exception raised by reading or decoding. -/
structure Entry where
  name : String
  content : Except String String

/-- Characters of the literal regex part `<a:t>` (the opening tag). -/
def openTag : List Char := ['<', 'a', ':', 't', '>']

/-- Characters of the literal regex part `</a:t>` (the closing tag). -/
def closeTag : List Char := ['<', '/', 'a', ':', 't', '>']

/-- Python `s.startswith(pre)`. -/
def pyStartsWith (s pre : String) : Bool := pre.toList.isPrefixOf s.toList

/-- Python `s.endswith(suf)`. -/
def pyEndsWith (s suf : String) : Bool := suf.toList.isSuffixOf s.toList

/-- The filter of the list comprehension on line 9:
`f.startswith('ppt/slides/slide') and f.endswith('.xml')`. -/
def slideFilter (f : String) : Bool :=
  pyStartsWith f "ppt/slides/slide" && pyEndsWith f ".xml"

/-- The filtered name list `slide_files` before sorting, in archive
enumeration order. -/
def slideNames (entries : List Entry) : List String :=
  (entries.map Entry.name).filter slideFilter

/-- Value of a decimal digit string, as Python `int` computes it on the
(nonempty, all-digit) text of group 1. -/
def digitsVal (ds : List Char) : Nat :=
  ds.foldl (fun n c => 10 * n + (c.toNat - 48)) 0

/-- Attempt to match the regex `slide(\d+)` at the very start of `cs`:
the literal `slide` followed by a maximal nonempty run of digits
(`\d+` is greedy).  Returns the numeric value of group 1. -/
def slideNumAt (cs : List Char) : Option Nat :=
  if ['s', 'l', 'i', 'd', 'e'].isPrefixOf cs then
    match (cs.drop 5).takeWhile Char.isDigit with
    | [] => none
    | ds => some (digitsVal ds)
  else none

/-- `re.search(r'slide(\d+)', x)` composed with `int(... .group(1))`:
scan left to right for the first position where `slide(\d+)` matches and
return the numeric value of its group 1; `none` when `re.search` returns
`None` (and `.group` would raise `AttributeError`). -/
def searchSlideNum : List Char → Option Nat
  | [] => none
  | c :: rest =>
    match slideNumAt (c :: rest) with
    | some n => some n
    | none => searchSlideNum rest

/-- The sort key of line 10 as a partial function: `int(re.search(r'slide(\d+)', x).group(1))`. -/
def extractOrdinal (x : String) : Option Nat := searchSlideNum x.toList

/-- Total version of the sort key, used only on names where `extractOrdinal`
succeeds (the run raises before sorting otherwise). -/
def ordKey (x : String) : Nat := (extractOrdinal x).getD 0

/-- The sort order of line 10: ascending comparison of the numeric keys.
Python's `list.sort` produces the sorted stable permutation, which is unique,
so any stable sorting algorithm is an exact model; we use insertion sort. -/
def fileLe (a b : String) : Prop := ordKey a ≤ ordKey b

instance : DecidableRel fileLe :=
  fun a b => inferInstanceAs (Decidable (ordKey a ≤ ordKey b))

instance : IsTotal String fileLe := ⟨fun a b => Nat.le_total (ordKey a) (ordKey b)⟩

instance : IsTrans String fileLe := ⟨fun _ _ _ h h' => Nat.le_trans h h'⟩

/-- Strict version of the key order, used to state uniqueness of the sorted
order when the keys are pairwise distinct. -/
def fileLt (a b : String) : Prop := ordKey a < ordKey b

instance : IsAntisymm String fileLt := ⟨fun _ _ h h' => absurd h' (Nat.lt_asymm h)⟩

/-- `slide_files` after the in-place `slide_files.sort(key=...)` of line 10. -/
def sortedNames (entries : List Entry) : List String :=
  List.insertionSort fileLe (slideNames entries)

/-- Message of the `AttributeError` Python raises on line 10 when `re.search`
returns `None` and `.group(1)` is evaluated on it.  CPython's text is
`'NoneType' object has no attribute 'group'`; the quote characters are
omitted from the model, no claim depends on the message body. -/
def noneGroupMsg : String := "NoneType object has no attribute group"

/-- Python `s.replace(pat, rep)` for a nonempty `pat` (both uses in the source
pass nonempty literals): replace every non-overlapping occurrence, scanning
left to right and resuming after each replaced segment.  The `skip` counter
holds how many already-replaced characters remain to be dropped, which keeps
the recursion structural. -/
def replaceAll (pat rep : List Char) : List Char → Nat → List Char
  | [], _ => []
  | _ :: rest, Nat.succ k => replaceAll pat rep rest k
  | c :: rest, 0 =>
    if pat ≠ [] ∧ pat.isPrefixOf (c :: rest) then
      rep ++ replaceAll pat rep rest (pat.length - 1)
    else
      c :: replaceAll pat rep rest 0

/-- Python `s.replace(pat, rep)` lifted to `String`. -/
def pyReplace (s pat rep : String) : String :=
  String.mk (replaceAll pat.toList rep.toList s.toList 0)

/-- Python `str.upper` restricted to ASCII (all names of interest are ASCII). -/
def upChar (c : Char) : Char :=
  if c.isLower then Char.ofNat (c.toNat - 32) else c

/-- Python `s.upper()` over ASCII strings. -/
def toUpperAscii (s : String) : String := String.mk (s.toList.map upChar)

/-- The heading line of line 13:
`f"--- {slide_file.upper().replace('PPT/SLIDES/', '').replace('.XML', '')} ---"`. -/
def heading (slide_file : String) : String :=
  "--- " ++ pyReplace (pyReplace (toUpperAscii slide_file) "PPT/SLIDES/" "") ".XML" "" ++ " ---"

/-- Lazy body of the regex `<a:t>(.*?)</a:t>` starting right after an opening
tag: the shortest run of characters each matching `.` (any character except a
newline - `re.DOTALL` is not set) that is followed by the literal closing tag.
Returns the group-1 characters and the rest of the input after the closing
tag, or `none` when no such run exists (the match attempt fails). -/
def lazyBody : List Char → Option (List Char × List Char)
  | [] => none
  | c :: rest =>
    if closeTag.isPrefixOf (c :: rest) then some ([], rest.drop 5)
    else if c = '\n' then none
    else
      match lazyBody rest with
      | some (body, r2) => some (c :: body, r2)
      | none => none

/-- When a match attempt succeeds, the input left over is strictly shorter
than the input scanned. -/
theorem lazyBody_length :
    ∀ cs body r2, lazyBody cs = some (body, r2) → r2.length < cs.length := by
  intro cs
  induction cs with
  | nil => intro body r2 h; simp [lazyBody] at h
  | cons c rest ih =>
    intro body r2 h
    simp only [lazyBody] at h
    by_cases hpre : closeTag.isPrefixOf (c :: rest) = true
    · simp [hpre] at h
      obtain ⟨_, hr⟩ := h
      subst hr
      simp only [List.length_cons, List.length_drop]
      omega
    · simp [hpre] at h
      by_cases hnl : c = '\n'
      · simp [hnl] at h
      · simp [hnl] at h
        match hrec : lazyBody rest with
        | some (b, r) =>
          rw [hrec] at h
          simp at h
          obtain ⟨_, hr⟩ := h
          subst hr
          have := ih b r hrec
          simp only [List.length_cons]
          omega
        | none => rw [hrec] at h; simp at h

/-- `re.findall(r'<a:t>(.*?)</a:t>', content)` over the characters of
`content`: scan left to right; at each position try to match the pattern
(the literal opening tag, then `lazyBody`); on success emit group 1 and
resume after the match (matches do not overlap), on failure move one
character forward. -/
def findAllAux (cs : List Char) : List (List Char) :=
  match cs with
  | [] => []
  | c :: rest =>
    if openTag.isPrefixOf (c :: rest) then
      match h2 : lazyBody (rest.drop 4) with
      | some (body, r2) => body :: findAllAux r2
      | none => findAllAux rest
    else findAllAux rest
termination_by cs.length
decreasing_by
  · have h3 := lazyBody_length (rest.drop 4) body r2 h2
    simp only [List.length_drop] at h3
    simp only [List.length_cons]
    omega
  · simp
  · simp

/-- `re.findall(r'<a:t>(.*?)</a:t>', content)` on line 16, lifted to `String`. -/
def extractFragments (content : String) : List String :=
  (findAllAux content.toList).map String.mk

/-- `" ".join(text_matches)` on line 17. -/
def joinFragments (text_matches : List String) : String :=
  String.intercalate " " text_matches

/-- `zip_ref.read(slide_file).decode('utf-8')` as an effect on the archive:
`zipfile` resolves a name through its name-to-info dictionary, in which a
duplicated name is overwritten by its last occurrence; a missing name would
raise `KeyError` (unreachable here - every looked-up name comes from
`namelist()`). -/
def readEntry (entries : List Entry) (slide_file : String) : Except String String :=
  match (entries.filter (fun e => e.name == slide_file)).getLast? with
  | some e => e.content
  | none => Except.error "KeyError"

/-- The `for slide_file in slide_files:` loop of lines 12-18.  Returns the
lines printed by the loop and, when `zip_ref.read(...).decode(...)` raised,
the pending exception message (the heading of the failing slide is printed
before the read, so it is part of the printed lines). -/
def processSlides (entries : List Entry) : List String → List String × Option String
  | [] => ([], none)
  | slide_file :: rest =>
    match readEntry entries slide_file with
    | Except.error msg => ([heading slide_file], some msg)
    | Except.ok content =>
      let r := processSlides entries rest
      (heading slide_file :: joinFragments (extractFragments content) :: "" :: r.1, r.2)

/-- The whole of `extract_text_from_pptx`, from opening the archive to the
top-level `except Exception as e: print(f"Error: {e}")`.  The argument is the
result of `zipfile.ZipFile(pptx_path, 'r')`: the entry list in enumeration
order, or the exception message when the path does not name a readable zip
archive.  The result is the full standard output, one element per line. -/
def extract_text_from_pptx (arch : Except String (List Entry)) : List String :=
  match arch with
  | Except.error msg => ["Error: " ++ msg]
  | Except.ok entries =>
    if (slideNames entries).all (fun f => (extractOrdinal f).isSome) then
      match processSlides entries (sortedNames entries) with
      | (lines, none) => lines
      | (lines, some msg) => lines ++ ["Error: " ++ msg]
    else
      ["Error: " ++ noneGroupMsg]

/-- The three lines a successfully read slide contributes to the output:
heading, space-joined fragments, blank separator. -/
def okBlock (entries : List Entry) (slide_file : String) : List String :=
  [heading slide_file,
   joinFragments (extractFragments ((readEntry entries slide_file).toOption.getD "")),
   ""]

/-- Helper for stating claim C5: the concatenation of a list of well-formed
inline-text elements, one per fragment body. -/
def wrapAll (bodies : List (List Char)) : List Char :=
  (bodies.map (fun b => openTag ++ b ++ closeTag)).flatten

theorem findAllAux_nil : findAllAux [] = [] := by
  simp [findAllAux]

theorem findAllAux_not_open (c : Char) (rest : List Char)
    (h : openTag.isPrefixOf (c :: rest) = false) :
    findAllAux (c :: rest) = findAllAux rest := by
  rw [findAllAux]
  simp [h]

theorem findAllAux_match (c : Char) (rest body r2 : List Char)
    (hpre : openTag.isPrefixOf (c :: rest) = true)
    (h : lazyBody (rest.drop 4) = some (body, r2)) :
    findAllAux (c :: rest) = body :: findAllAux r2 := by
  rw [findAllAux]
  simp only [hpre, if_true]
  split
  · rename_i b r heq
    rw [h] at heq
    cases heq
    rfl
  · rename_i heq
    rw [h] at heq
    cases heq

theorem isPrefixOf_openTag_false (c : Char) (rest : List Char) (h : ¬c = '<') :
    openTag.isPrefixOf (c :: rest) = false := by
  simp [openTag, List.isPrefixOf]
  intro hc
  exact absurd hc.symm h

theorem findAllAux_skip (l cs : List Char) (h : ∀ c ∈ l, ¬c = '<') :
    findAllAux (l ++ cs) = findAllAux cs := by
  induction l with
  | nil => simp
  | cons c rest ih =>
    have hc : ¬c = '<' := h c (by simp)
    rw [List.cons_append,
      findAllAux_not_open c (rest ++ cs) (isPrefixOf_openTag_false c (rest ++ cs) hc)]
    exact ih (fun d hd => h d (by simp [hd]))

theorem lazyBody_cons (c : Char) (rest : List Char) :
    lazyBody (c :: rest) =
      if closeTag.isPrefixOf (c :: rest) then some ([], rest.drop 5)
      else if c = '\n' then none
      else match lazyBody rest with
        | some (body, r2) => some (c :: body, r2)
        | none => none := by
  rw [lazyBody]

theorem lazyBody_closeTag (rest : List Char) :
    lazyBody (closeTag ++ rest) = some ([], rest) := by
  have hpre : closeTag.isPrefixOf ('<' :: '/' :: 'a' :: ':' :: 't' :: '>' :: rest) = true := by
    simp [closeTag, List.isPrefixOf]
  show lazyBody ('<' :: '/' :: 'a' :: ':' :: 't' :: '>' :: rest) = some ([], rest)
  rw [lazyBody_cons]
  simp [hpre]

theorem lazyBody_wellFormed (body rest : List Char)
    (h : ∀ c ∈ body, ¬c = '<' ∧ ¬c = '\n') :
    lazyBody (body ++ closeTag ++ rest) = some (body, rest) := by
  induction body with
  | nil => simpa using lazyBody_closeTag rest
  | cons c body ih =>
    obtain ⟨hlt, hnl⟩ := h c (by simp)
    have hpre : closeTag.isPrefixOf (c :: (body ++ closeTag ++ rest)) = false := by
      simp [closeTag, List.isPrefixOf]
      intro hc
      exact absurd hc.symm hlt
    have ihh : lazyBody (body ++ closeTag ++ rest) = some (body, rest) :=
      ih (fun d hd => h d (by simp [hd]))
    show lazyBody (c :: (body ++ closeTag ++ rest)) = some (c :: body, rest)
    rw [lazyBody_cons, if_neg (by rw [hpre]; simp), if_neg hnl, ihh]

theorem findAllAux_wrap (body rest : List Char)
    (h : ∀ c ∈ body, ¬c = '<' ∧ ¬c = '\n') :
    findAllAux (openTag ++ (body ++ closeTag ++ rest)) = body :: findAllAux rest := by
  show findAllAux ('<' :: 'a' :: ':' :: 't' :: '>' :: (body ++ closeTag ++ rest)) =
    body :: findAllAux rest
  have hpre : openTag.isPrefixOf
      ('<' :: 'a' :: ':' :: 't' :: '>' :: (body ++ closeTag ++ rest)) = true := by
    simp [openTag, List.isPrefixOf]
  exact findAllAux_match '<' ('a' :: ':' :: 't' :: '>' :: (body ++ closeTag ++ rest))
    body rest hpre (lazyBody_wellFormed body rest h)

theorem findAllAux_wrapAll (bodies : List (List Char))
    (h : ∀ b ∈ bodies, ∀ c ∈ b, ¬c = '<' ∧ ¬c = '\n') :
    findAllAux (wrapAll bodies) = bodies := by
  induction bodies with
  | nil => simpa [wrapAll] using findAllAux_nil
  | cons b bodies ih =>
    have hb := h b (by simp)
    have hw : wrapAll (b :: bodies) = openTag ++ (b ++ closeTag ++ wrapAll bodies) := by
      simp [wrapAll, List.append_assoc]
    rw [hw, findAllAux_wrap b (wrapAll bodies) hb,
      ih (fun d hd => h d (by simp [hd]))]

theorem processSlides_all_ok (entries : List Entry) (names : List String)
    (h : ∀ g ∈ names, (readEntry entries g).isOk = true) :
    processSlides entries names = (names.flatMap (okBlock entries), none) := by
  induction names with
  | nil => simp [processSlides]
  | cons f rest ih =>
    have hf := h f (by simp)
    match hr : readEntry entries f with
    | Except.error m => rw [hr] at hf; simp [Except.isOk, Except.toBool] at hf
    | Except.ok c =>
      have ihh := ih (fun g hg => h g (by simp [hg]))
      simp [processSlides, hr, ihh, okBlock, Except.toOption]

theorem processSlides_err (entries : List Entry) (pre : List String) (f : String)
    (post : List String) (msg : String)
    (hpre : ∀ g ∈ pre, (readEntry entries g).isOk = true)
    (hf : readEntry entries f = Except.error msg) :
    processSlides entries (pre ++ f :: post) =
      (pre.flatMap (okBlock entries) ++ [heading f], some msg) := by
  induction pre with
  | nil => simp [processSlides, hf]
  | cons g pre ih =>
    have hg := hpre g (by simp)
    match hr : readEntry entries g with
    | Except.error m => rw [hr] at hg; simp [Except.isOk, Except.toBool] at hg
    | Except.ok c =>
      have ihh := ih (fun g' hg' => hpre g' (by simp [hg']))
      simp [processSlides, hr, ihh, okBlock, Except.toOption]

theorem processSlides_congr (e₁ e₂ : List Entry) (names : List String)
    (h : ∀ f ∈ names, readEntry e₁ f = readEntry e₂ f) :
    processSlides e₁ names = processSlides e₂ names := by
  induction names with
  | nil => rfl
  | cons f rest ih =>
    have hf := h f (by simp)
    have ihh := ih (fun g hg => h g (by simp [hg]))
    simp [processSlides, hf, ihh]

theorem run_ok_all (entries : List Entry)
    (hOrd : ∀ f ∈ slideNames entries, (extractOrdinal f).isSome = true)
    (hReads : ∀ g ∈ sortedNames entries, (readEntry entries g).isOk = true) :
    extract_text_from_pptx (Except.ok entries) =
      (sortedNames entries).flatMap (okBlock entries) := by
  simp only [extract_text_from_pptx]
  rw [if_pos (List.all_eq_true.mpr hOrd), processSlides_all_ok entries _ hReads]

theorem count_name_eq_length_filter (e : List Entry) (f : String) :
    List.count f (e.map Entry.name) = (e.filter (fun x => x.name == f)).length := by
  induction e with
  | nil => simp
  | cons a e ih =>
    simp only [List.map_cons, List.count_cons, List.filter_cons]
    by_cases ha : a.name = f
    · simp [ha, ih]
    · have : (a.name == f) = false := by simp [ha]
      simp [this, ih]

theorem readEntry_eq_of_perm (e₁ e₂ : List Entry) (f : String)
    (hperm : e₁.Perm e₂)
    (hone : (e₁.filter (fun x => x.name == f)).length = 1) :
    readEntry e₁ f = readEntry e₂ f := by
  obtain ⟨a, ha⟩ := List.length_eq_one.mp hone
  have hp2 : (e₂.filter (fun x => x.name == f)).Perm [a] := by
    rw [← ha]
    exact (hperm.filter (fun x => x.name == f)).symm
  have ha2 : e₂.filter (fun x => x.name == f) = [a] := List.perm_singleton.mp hp2
  unfold readEntry
  rw [ha, ha2]

theorem sorted_fileLt_of_nodup (l : List String)
    (hs : List.Sorted fileLe l) (hn : (l.map ordKey).Nodup) :
    List.Sorted fileLt l := by
  have h1 : l.Pairwise (fun a b => ordKey a ≠ ordKey b) := List.pairwise_map.mp hn
  exact (hs.and h1).imp (fun h => Nat.lt_of_le_of_ne h.1 h.2)

theorem flatMap_congr_mem (l : List String) (f g : String → List String)
    (h : ∀ x ∈ l, f x = g x) : l.flatMap f = l.flatMap g := by
  induction l with
  | nil => rfl
  | cons a l ih =>
    simp only [List.flatMap_cons, h a (by simp), ih (fun x hx => h x (by simp [hx]))]

theorem count_slide_one (e : List Entry) (f : String)
    (hNodup : ((slideNames e).map ordKey).Nodup)
    (hf : f ∈ slideNames e) :
    (e.filter (fun x => x.name == f)).length = 1 := by
  have hnodsl : (slideNames e).Nodup := List.Nodup.of_map ordKey hNodup
  have h1 : List.count f (slideNames e) = 1 := List.count_eq_one_of_mem hnodsl hf
  have hpf : slideFilter f = true := by
    unfold slideNames at hf
    exact (List.mem_filter.mp hf).2
  unfold slideNames at h1
  rw [List.count_filter hpf] at h1
  rw [← count_name_eq_length_filter]
  exact h1

/-- Claim C1: for every archive whose slide entries carry distinct numeric
ordinals (and whose slide reads succeed, so that the blocks are printed),
`extract_text_from_pptx` processes the slides in a strictly ascending order
of the numeric ordinal parsed from each entry name - its output is the
concatenation of the per-slide blocks along `sortedNames`, whose keys are
strictly increasing - and the output is invariant under any permutation of
the archive's entry enumeration order. -/
theorem slides_in_ascending_ordinal_order (e₁ e₂ : List Entry)
    (hOrd : ∀ f ∈ slideNames e₁, (extractOrdinal f).isSome = true)
    (hNodup : ((slideNames e₁).map ordKey).Nodup)
    (hPerm : e₁.Perm e₂)
    (hReads : ∀ g ∈ sortedNames e₁, (readEntry e₁ g).isOk = true) :
    List.Pairwise fileLt (sortedNames e₁)
    ∧ extract_text_from_pptx (Except.ok e₁) = extract_text_from_pptx (Except.ok e₂)
    ∧ extract_text_from_pptx (Except.ok e₁) = (sortedNames e₁).flatMap (okBlock e₁) := by
  have hsn_perm : (slideNames e₁).Perm (slideNames e₂) :=
    List.Perm.filter slideFilter (hPerm.map Entry.name)
  have hn1 : (sortedNames e₁).Perm (slideNames e₁) :=
    List.perm_insertionSort fileLe (slideNames e₁)
  have hn2 : (sortedNames e₂).Perm (slideNames e₂) :=
    List.perm_insertionSort fileLe (slideNames e₂)
  have hkeys1 : ((sortedNames e₁).map ordKey).Nodup :=
    ((hn1.symm).map ordKey).nodup hNodup
  have hNodup₂ : ((slideNames e₂).map ordKey).Nodup :=
    (hsn_perm.map ordKey).nodup hNodup
  have hkeys2 : ((sortedNames e₂).map ordKey).Nodup :=
    ((hn2.symm).map ordKey).nodup hNodup₂
  have hsorted1 : List.Sorted fileLt (sortedNames e₁) :=
    sorted_fileLt_of_nodup _ (List.sorted_insertionSort fileLe (slideNames e₁)) hkeys1
  have hsorted2 : List.Sorted fileLt (sortedNames e₂) :=
    sorted_fileLt_of_nodup _ (List.sorted_insertionSort fileLe (slideNames e₂)) hkeys2
  have hperm12 : (sortedNames e₁).Perm (sortedNames e₂) :=
    hn1.trans (hsn_perm.trans hn2.symm)
  have hSeq : sortedNames e₁ = sortedNames e₂ :=
    List.eq_of_perm_of_sorted hperm12 hsorted1 hsorted2
  have hread_eq : ∀ f ∈ sortedNames e₁, readEntry e₁ f = readEntry e₂ f := by
    intro f hf
    exact readEntry_eq_of_perm e₁ e₂ f hPerm
      (count_slide_one e₁ f hNodup (hn1.mem_iff.mp hf))
  have hOrd₂ : ∀ f ∈ slideNames e₂, (extractOrdinal f).isSome = true :=
    fun f hf => hOrd f (hsn_perm.mem_iff.mpr hf)
  have hReads₂ : ∀ g ∈ sortedNames e₂, (readEntry e₂ g).isOk = true := by
    intro g hg
    rw [← hSeq] at hg
    rw [← hread_eq g hg]
    exact hReads g hg
  have hrun1 : extract_text_from_pptx (Except.ok e₁) =
      (sortedNames e₁).flatMap (okBlock e₁) := run_ok_all e₁ hOrd hReads
  have hrun2 : extract_text_from_pptx (Except.ok e₂) =
      (sortedNames e₂).flatMap (okBlock e₂) := run_ok_all e₂ hOrd₂ hReads₂
  have hblock : ∀ f ∈ sortedNames e₁, okBlock e₁ f = okBlock e₂ f := by
    intro f hf
    unfold okBlock
    rw [hread_eq f hf]
  refine ⟨hsorted1, ?_, hrun1⟩
  rw [hrun1, hrun2, ← hSeq]
  exact flatMap_congr_mem _ _ _ hblock

/-- Concrete check of claim C1: an archive enumerating slides 3, 1, 2 in that
order satisfies the hypotheses, so its three blocks come out in strictly
ascending ordinal order and the output is enumeration-order independent. -/
theorem slides_in_ascending_ordinal_order_witness :
    List.Pairwise fileLt (sortedNames
      [⟨"ppt/slides/slide3.xml", Except.ok "<a:t>three</a:t>"⟩,
       ⟨"ppt/slides/slide1.xml", Except.ok "<a:t>one</a:t>"⟩,
       ⟨"ppt/slides/slide2.xml", Except.ok "<a:t>two</a:t>"⟩])
    ∧ extract_text_from_pptx (Except.ok
      [⟨"ppt/slides/slide3.xml", Except.ok "<a:t>three</a:t>"⟩,
       ⟨"ppt/slides/slide1.xml", Except.ok "<a:t>one</a:t>"⟩,
       ⟨"ppt/slides/slide2.xml", Except.ok "<a:t>two</a:t>"⟩]) =
      extract_text_from_pptx (Except.ok
      [⟨"ppt/slides/slide1.xml", Except.ok "<a:t>one</a:t>"⟩,
       ⟨"ppt/slides/slide2.xml", Except.ok "<a:t>two</a:t>"⟩,
       ⟨"ppt/slides/slide3.xml", Except.ok "<a:t>three</a:t>"⟩])
    ∧ extract_text_from_pptx (Except.ok
      [⟨"ppt/slides/slide3.xml", Except.ok "<a:t>three</a:t>"⟩,
       ⟨"ppt/slides/slide1.xml", Except.ok "<a:t>one</a:t>"⟩,
       ⟨"ppt/slides/slide2.xml", Except.ok "<a:t>two</a:t>"⟩]) =
      (sortedNames
      [⟨"ppt/slides/slide3.xml", Except.ok "<a:t>three</a:t>"⟩,
       ⟨"ppt/slides/slide1.xml", Except.ok "<a:t>one</a:t>"⟩,
       ⟨"ppt/slides/slide2.xml", Except.ok "<a:t>two</a:t>"⟩]).flatMap (okBlock
      [⟨"ppt/slides/slide3.xml", Except.ok "<a:t>three</a:t>"⟩,
       ⟨"ppt/slides/slide1.xml", Except.ok "<a:t>one</a:t>"⟩,
       ⟨"ppt/slides/slide2.xml", Except.ok "<a:t>two</a:t>"⟩]) :=
  slides_in_ascending_ordinal_order _ _
    (by decide) (by decide)
    (@List.perm_append_comm Entry
      [⟨"ppt/slides/slide3.xml", Except.ok "<a:t>three</a:t>"⟩]
      [⟨"ppt/slides/slide1.xml", Except.ok "<a:t>one</a:t>"⟩,
       ⟨"ppt/slides/slide2.xml", Except.ok "<a:t>two</a:t>"⟩])
    (by decide)

/-- Claim C2, counterexample: an archive with the single entry
`ppt/slides/slide.xml` passes the slide filter but has no parseable decimal
component after `slide`; contrary to the claim, the `AttributeError` raised
during sort-key computation IS caught by the generic handler, and the run
prints the single generic diagnostic line `Error: <details>`. -/
theorem malformed_name_printed_as_error_line :
    extract_text_from_pptx (Except.ok [⟨"ppt/slides/slide.xml", Except.ok ""⟩]) =
      ["Error: " ++ noneGroupMsg] := by
  decide

/-- Claim C2, amended: if some filtered entry name lacks a parseable decimal
component after `slide`, the runtime failure during sort-key computation is
caught by the generic error path like every other exception in the `try`
block: the run prints exactly the single line `Error: <details>` and no
slide output. -/
theorem malformed_name_caught_by_generic_path (entries : List Entry)
    (hbad : ((slideNames entries).all fun f => (extractOrdinal f).isSome) = false) :
    extract_text_from_pptx (Except.ok entries) = ["Error: " ++ noneGroupMsg] := by
  simp only [extract_text_from_pptx]
  rw [if_neg (by rw [hbad]; simp)]

/-- Concrete check of the amended claim C2 at a different malformed name. -/
theorem malformed_name_caught_by_generic_path_witness :
    extract_text_from_pptx (Except.ok [⟨"ppt/slides/slideFinal.xml", Except.ok ""⟩]) =
      ["Error: " ++ noneGroupMsg] :=
  malformed_name_caught_by_generic_path _ (by decide)

/-- Claim C3: when opening the archive raises, the output is the single
diagnostic line; when reading or decoding a slide raises (after the slides
before it succeeded), the run prints the blocks already produced, the failing
slide's heading, then exactly one final `Error: <details>` line, and the
slides after the failing one are not processed. -/
theorem exception_aborts_with_single_diagnostic (entries : List Entry)
    (pre : List String) (f : String) (post : List String) (msg : String)
    (hOrd : ∀ g ∈ slideNames entries, (extractOrdinal g).isSome = true)
    (hsplit : sortedNames entries = pre ++ f :: post)
    (hpre : ∀ g ∈ pre, (readEntry entries g).isOk = true)
    (hf : readEntry entries f = Except.error msg) :
    extract_text_from_pptx (Except.error msg) = ["Error: " ++ msg]
    ∧ extract_text_from_pptx (Except.ok entries) =
        pre.flatMap (okBlock entries) ++ [heading f, "Error: " ++ msg] := by
  constructor
  · rfl
  · simp only [extract_text_from_pptx]
    rw [if_pos (List.all_eq_true.mpr hOrd), hsplit,
      processSlides_err entries pre f post msg hpre hf]
    simp

/-- Concrete check of claim C3: slide 2's decode fails, so the run stops after
slide 1's block, slide 2's heading and one `Error:` line; slide 3 is never
processed. -/
theorem exception_aborts_with_single_diagnostic_witness :
    extract_text_from_pptx (Except.error "utf-8 decode failure") =
      ["Error: " ++ "utf-8 decode failure"]
    ∧ extract_text_from_pptx (Except.ok
        [⟨"ppt/slides/slide1.xml", Except.ok "<a:t>a</a:t>"⟩,
         ⟨"ppt/slides/slide2.xml", Except.error "utf-8 decode failure"⟩,
         ⟨"ppt/slides/slide3.xml", Except.ok "<a:t>c</a:t>"⟩]) =
      ["ppt/slides/slide1.xml"].flatMap (okBlock
        [⟨"ppt/slides/slide1.xml", Except.ok "<a:t>a</a:t>"⟩,
         ⟨"ppt/slides/slide2.xml", Except.error "utf-8 decode failure"⟩,
         ⟨"ppt/slides/slide3.xml", Except.ok "<a:t>c</a:t>"⟩]) ++
      [heading "ppt/slides/slide2.xml", "Error: " ++ "utf-8 decode failure"] :=
  exception_aborts_with_single_diagnostic _
    ["ppt/slides/slide1.xml"] "ppt/slides/slide2.xml" ["ppt/slides/slide3.xml"]
    "utf-8 decode failure" (by decide) (by decide) (by decide) rfl

/-- Claim C4: when the path does not open as a readable zip archive, the
output is exactly one line, it begins with `Error:`, and there is no heading
or content line. -/
theorem open_failure_single_error_line (msg : String) :
    extract_text_from_pptx (Except.error msg) = ["Error: " ++ msg]
    ∧ pyStartsWith ("Error: " ++ msg) "Error:" = true := by
  constructor
  · rfl
  · unfold pyStartsWith
    rw [List.isPrefixOf_iff_prefix]
    refine ⟨' ' :: msg.toList, ?_⟩
    show "Error:".toList ++ (' ' :: msg.toList) = ("Error: " ++ msg).toList
    have h1 : ("Error: " ++ msg).toList = "Error: ".toList ++ msg.toList :=
      String.data_append "Error: " msg
    have h2 : "Error: ".toList = "Error:".toList ++ [' '] := by decide
    rw [h1, h2, List.append_assoc]
    rfl

/-- Concrete check of claim C4 at one opening-failure message. -/
theorem open_failure_single_error_line_witness :
    extract_text_from_pptx (Except.error "No such file or directory") =
      ["Error: " ++ "No such file or directory"]
    ∧ pyStartsWith ("Error: " ++ "No such file or directory") "Error:" = true :=
  open_failure_single_error_line "No such file or directory"

/-- Claim C5: the extracted fragments of a slide are all non-overlapping
occurrences of the inline-text tag pair in document order, with duplicates
and empty contents preserved (stated for any list of well-formed elements:
scanning their concatenation returns exactly the list of bodies in order),
and the fragments are joined with single spaces, so the document-order
fragments `Hello`, empty, `World` produce the content line with two
consecutive spaces. -/
theorem fragments_in_document_order (bodies : List (List Char))
    (h : ∀ b ∈ bodies, ∀ c ∈ b, ¬c = '<' ∧ ¬c = '\n') :
    findAllAux (wrapAll bodies) = bodies
    ∧ joinFragments ["Hello", "", "World"] = "Hello  World" :=
  ⟨findAllAux_wrapAll bodies h, by decide⟩

/-- Concrete check of claim C5 on the fragment list of the spec's example. -/
theorem fragments_in_document_order_witness :
    findAllAux (wrapAll [['H', 'e', 'l', 'l', 'o'], [], ['W', 'o', 'r', 'l', 'd']]) =
      [['H', 'e', 'l', 'l', 'o'], [], ['W', 'o', 'r', 'l', 'd']]
    ∧ joinFragments ["Hello", "", "World"] = "Hello  World" :=
  fragments_in_document_order _ (by decide)

/-- Claim C6: a slide entry whose decoded content has zero occurrences of the
tag pair is not skipped: its block in the output is its heading line, exactly
one empty content line, and one blank separator line. -/
theorem empty_slide_block_printed (entries : List Entry) (pre : List String)
    (f : String) (post : List String) (c : String)
    (hOrd : ∀ g ∈ slideNames entries, (extractOrdinal g).isSome = true)
    (hsplit : sortedNames entries = pre ++ f :: post)
    (hread : readEntry entries f = Except.ok c)
    (hfrag : extractFragments c = [])
    (hReads : ∀ g ∈ sortedNames entries, (readEntry entries g).isOk = true) :
    extract_text_from_pptx (Except.ok entries) =
      pre.flatMap (okBlock entries) ++ [heading f, "", ""] ++
        post.flatMap (okBlock entries) := by
  rw [run_ok_all entries hOrd hReads, hsplit, List.flatMap_append, List.flatMap_cons]
  have hc : (readEntry entries f).toOption.getD "" = c := by rw [hread]; rfl
  have hb : okBlock entries f = [heading f, "", ""] := by
    unfold okBlock
    rw [hc, hfrag]
    rfl
  rw [hb]
  simp [List.append_assoc]

theorem findAllAux_no_tags (l : List Char) (h : ∀ c ∈ l, ¬c = '<') :
    findAllAux l = [] := by
  have h1 := findAllAux_skip l [] h
  rw [List.append_nil] at h1
  rw [h1, findAllAux_nil]

/-- Concrete check of claim C6: a slide whose content has no text elements
still contributes its heading, an empty line, and a blank line. -/
theorem empty_slide_block_printed_witness :
    extract_text_from_pptx (Except.ok
      [⟨"ppt/slides/slide1.xml", Except.ok "plain slide body, no tags"⟩]) =
      [heading "ppt/slides/slide1.xml", "", ""] :=
  empty_slide_block_printed
    [⟨"ppt/slides/slide1.xml", Except.ok "plain slide body, no tags"⟩]
    [] "ppt/slides/slide1.xml" [] "plain slide body, no tags"
    (by decide) (by decide) rfl
    (by unfold extractFragments
        rw [findAllAux_no_tags _ (by decide)]
        rfl)
    (by decide)

/-- Claim C7: the heading label is the entry name uppercased, with the slide
storage prefix and the XML suffix removed, framed by triple dashes; in
particular `ppt/slides/slide12.xml` produces `--- SLIDE12 ---`. -/
theorem heading_label_derivation :
    heading "ppt/slides/slide12.xml" = "--- SLIDE12 ---"
    ∧ ∀ slide_file : String, heading slide_file =
        "--- " ++ pyReplace (pyReplace (toUpperAscii slide_file) "PPT/SLIDES/" "") ".XML" ""
          ++ " ---" :=
  ⟨by decide, fun _ => rfl⟩

/-- Claim C8: an archive with no entry matching the slide pattern produces no
output at all and no error. -/
theorem no_slides_empty_output (entries : List Entry)
    (h : slideNames entries = []) :
    extract_text_from_pptx (Except.ok entries) = [] := by
  have hs : sortedNames entries = [] := by unfold sortedNames; rw [h]; rfl
  simp only [extract_text_from_pptx]
  rw [if_pos (show ((slideNames entries).all fun f => (extractOrdinal f).isSome) = true
    from by rw [h]; rfl)]
  rw [hs]
  rfl

/-- Concrete check of claim C8 on an archive holding only non-slide entries. -/
theorem no_slides_empty_output_witness :
    extract_text_from_pptx (Except.ok
      [⟨"docProps/core.xml", Except.ok ""⟩,
       ⟨"ppt/presentation.xml", Except.ok "<a:t>ignored</a:t>"⟩]) = [] :=
  no_slides_empty_output _ (by decide)

/-- Claim C9 (implicit): fragment extraction matches only the literal opening
tag `<a:t>`; an element whose opening tag carries an attribute (any nonempty
attribute text free of the markup delimiters `<` and `>`) contributes no
fragment, wherever it occurs: scanning past the whole attributed element
yields exactly the scan of the remaining input. -/
theorem attribute_tag_no_fragment (attr txt cs : List Char)
    (h1 : attr ≠ [])
    (h2 : ∀ c ∈ attr, ¬c = '<' ∧ ¬c = '>')
    (h3 : ∀ c ∈ txt, ¬c = '<') :
    findAllAux ('<' :: 'a' :: ':' :: 't' :: (attr ++ '>' :: (txt ++ closeTag ++ cs))) =
      findAllAux cs := by
  obtain ⟨a, as, rfl⟩ := List.exists_cons_of_ne_nil h1
  have ha : ¬a = '>' := (h2 a (by simp)).2
  have hpre0 : openTag.isPrefixOf
      ('<' :: 'a' :: ':' :: 't' :: a :: (as ++ '>' :: (txt ++ closeTag ++ cs))) = false := by
    simp [openTag, List.isPrefixOf]
    intro h
    exact absurd h.symm ha
  have hpre1 : openTag.isPrefixOf ('<' :: '/' :: 'a' :: ':' :: 't' :: '>' :: cs) = false := by
    simp [openTag, List.isPrefixOf]
  calc findAllAux ('<' :: 'a' :: ':' :: 't' :: a :: (as ++ '>' :: (txt ++ closeTag ++ cs)))
      = findAllAux ('a' :: ':' :: 't' :: a :: (as ++ '>' :: (txt ++ closeTag ++ cs))) :=
        findAllAux_not_open _ _ hpre0
    _ = findAllAux (a :: (as ++ '>' :: (txt ++ closeTag ++ cs))) :=
        findAllAux_skip ['a', ':', 't'] _ (by decide)
    _ = findAllAux ('>' :: (txt ++ closeTag ++ cs)) :=
        findAllAux_skip (a :: as) _ (fun c hc => (h2 c hc).1)
    _ = findAllAux (txt ++ closeTag ++ cs) :=
        findAllAux_skip ['>'] _ (by decide)
    _ = findAllAux (txt ++ (closeTag ++ cs)) := by rw [List.append_assoc]
    _ = findAllAux (closeTag ++ cs) := findAllAux_skip txt _ h3
    _ = findAllAux ('/' :: 'a' :: ':' :: 't' :: '>' :: cs) :=
        findAllAux_not_open _ _ hpre1
    _ = findAllAux cs := findAllAux_skip ['/', 'a', ':', 't', '>'] _ (by decide)

/-- Concrete check of claim C9 on the spec's example: an opening tag with an
`xml:space` attribute contributes no fragment. -/
theorem attribute_tag_no_fragment_witness :
    extractFragments "<a:t xml:space=\"preserve\">text</a:t>" = [] := by
  have heq : "<a:t xml:space=\"preserve\">text</a:t>".toList =
      '<' :: 'a' :: ':' :: 't' ::
        (" xml:space=\"preserve\"".toList ++ '>' :: ("text".toList ++ closeTag ++ [])) := by
    decide
  unfold extractFragments
  rw [heq,
    attribute_tag_no_fragment " xml:space=\"preserve\"".toList "text".toList []
      (by decide) (by decide) (by decide),
    findAllAux_nil]
  rfl

/-- Claim C10: the output is a deterministic pure function of the archive
value (its entry names and entry contents): equal archives give byte-identical
output on any two runs. -/
theorem output_deterministic (a₁ a₂ : Except String (List Entry)) (h : a₁ = a₂) :
    extract_text_from_pptx a₁ = extract_text_from_pptx a₂ := by
  rw [h]

/-- Concrete check of claim C10: two runs over one concrete archive value. -/
theorem output_deterministic_witness :
    extract_text_from_pptx (Except.ok [⟨"ppt/slides/slide1.xml", Except.ok "<a:t>hi</a:t>"⟩]) =
      extract_text_from_pptx (Except.ok [⟨"ppt/slides/slide1.xml", Except.ok "<a:t>hi</a:t>"⟩]) :=
  output_deterministic _ _ rfl
